import Mathlib

set_option autoImplicit false

/-!
A shallow embedding of the core of the rlox bytecode compiler and virtual
machine (src/chunk.rs, src/compile.rs, src/vm.rs, src/intern_string.rs,
src/classes.rs, src/function.rs, src/value.rs, src/opcodes.rs, src/tokens.rs),
together with theorems settling the frozen claims about it.

Modelling conventions:
* `Rc`-backed runtime objects (interned strings, `FunctionInner`, upvalue
  cells, classes, instances, `Rc<Closure>` method entries) are modelled by a
  `Nat` identity field; `Rc::ptr_eq` becomes equality of those identities.
* The VM value stack and the call-frame stack are Rust `Vec`s; they are
  modelled as Lean lists with index 0 = bottom, push/pop at the END of the
  list (so list indices coincide with `Vec` indices).
* Rust `f64` is modelled by Lean `Float` (IEEE-754 binary64); `f64::eq` and
  `f64` arithmetic become `Float` operations.
* Code paths that `panic!`/`unwrap` on broken internal invariants are
  modelled by `Option`, with `none` for the panic; runtime errors keep their
  message strings verbatim.
-/

namespace RLox

/-- The opcode set, from src/opcodes.rs. -/
inductive OpCode where
  | Constant
  | Nil
  | True
  | False
  | Negate
  | Add
  | Subtract
  | Multiply
  | Divide
  | Not
  | Equal
  | Greater
  | Less
  | Return
  | Print
  | Pop
  | DefineGlobal
  | GetGlobal
  | SetGlobal
  | GetLocal
  | SetLocal
  | GetUpvalue
  | SetUpvalue
  | Jump
  | JumpIfFalse
  | Loop
  | Call
  | Closure
  | CloseUpvalue
  | Class
  | GetProperty
  | SetProperty
  | Method
  | Invoke
  | Inherit
  | GetSuper
  | SuperInvoke
  deriving DecidableEq

/-- One byte of a chunk's code stream: either an opcode or an operand byte
(src/chunk.rs `CodeUnit`, an untagged union in the source; the tag here is
the "external knowledge" the source threads through its unsafe accessors). -/
inductive CodeUnit where
  | opcode (op : OpCode)
  | index (i : Nat)

/-- An interned string (src/intern_string.rs `Symbol`): a shared
`Rc<String>`.  `id` models the `Rc` pointer, `text` the contents. -/
structure Symbol where
  id : Nat
  text : String
  deriving DecidableEq

/-- `Symbol`'s `PartialEq` is `Rc::ptr_eq` of the shared string. -/
def symbolEq (a b : Symbol) : Bool :=
  a.id == b.id

/-- A chunk (src/chunk.rs `Chunk`): code units, the constant pool, and the
per-instruction source-line map.  Parametrised by the value type because the
constant pool stores `Value`s, which in turn contain chunks. -/
structure Chunk (V : Type) where
  code : List CodeUnit
  constants : List V
  lines : List Nat

/-- A compiled function (src/function.rs `Function` = `Rc<FunctionInner>`);
`id` models the `Rc` pointer identity used by its `PartialEq`. -/
structure Function (V : Type) where
  id : Nat
  name : Option Symbol
  arity : Nat
  chunk : Chunk V
  upvalueCount : Nat

/-- src/function.rs `UpvalueLocation`: `Stack(usize)` or `Heap(Rc<Value>)`.
`cellId` models the `Rc` pointer of a closed (heap) cell. -/
inductive UpvalueLocation (V : Type) where
  | stack (index : Nat)
  | heap (cellId : Nat) (value : V)

/-- src/function.rs `UpvalueLocation`'s manual `PartialEq`: stack locations
by index, heap locations by `Rc::ptr_eq`. -/
def upvalueLocationEq {V : Type} : UpvalueLocation V → UpvalueLocation V → Bool
  | UpvalueLocation.stack a, UpvalueLocation.stack b => a == b
  | UpvalueLocation.heap a _, UpvalueLocation.heap b _ => a == b
  | _, _ => false

/-- src/function.rs `ObjUpvalue`: an `Rc<RefCell<ObjUpvalueInner>>` cell.
`id` models the `Rc` pointer (two separately allocated cells have different
`id`s); the derived `PartialEq` compares only the inner `location`. -/
structure ObjUpvalue (V : Type) where
  id : Nat
  location : UpvalueLocation V

/-- `ObjUpvalue`'s derived `PartialEq`: `Rc`/`RefCell` compare the inner
values, so only the locations are compared, never the cell identities. -/
def objUpvalueEq {V : Type} (a b : ObjUpvalue V) : Bool :=
  upvalueLocationEq a.location b.location

/-- src/function.rs `Closure`: a plain struct (not `Rc`-shared) pairing a
`Function` with its captured upvalue cells. -/
structure Closure (V : Type) where
  function : Function V
  upvalues : List (ObjUpvalue V)

/-- src/classes.rs `ClazzRef`: an `Rc<RefCell<Clazz>>` handle; `PartialEq`
is `Rc::ptr_eq`, modelled by the `id`. -/
structure ClazzRef where
  id : Nat
  deriving DecidableEq

/-- src/classes.rs `InstanceRef`: an `Rc<RefCell<Instance>>` handle. -/
structure InstanceRef where
  id : Nat
  deriving DecidableEq

/-- The runtime value type (src/value.rs `Value`).  `NativeFunction` carries
the host function pointer (modelled by `fnId`, compared by pointer) and its
arity; `BoundMethod` carries the receiver, the `Rc<Closure>` pointer
(`methodId`) and the shared closure itself. -/
inductive Value where
  | Bool (b : Bool)
  | Double (f : Float)
  | String (s : Symbol)
  | Function (f : RLox.Function Value)
  | NativeFunction (fnId : Nat) (arity : Nat)
  | Closure (c : RLox.Closure Value)
  | Class (ref : ClazzRef)
  | Instance (ref : InstanceRef)
  | BoundMethod (receiver : Value) (methodId : Nat) (method : RLox.Closure Value)
  | Nil

/-- The `Vec<ObjUpvalue>` equality used inside `Closure`'s derived
`PartialEq`: same length and elementwise `objUpvalueEq`. -/
def upvalueListEq : List (ObjUpvalue Value) → List (ObjUpvalue Value) → Bool
  | [], [] => true
  | a :: as_, b :: bs => objUpvalueEq a b && upvalueListEq as_ bs
  | _, _ => false

/-- `Value`'s derived `PartialEq` (src/value.rs), with the manual instances
of its components folded in: `Bool` by value, `Double` by `f64` equality,
`String` by symbol identity, `Function` by `Rc::ptr_eq`, `NativeFunction`
by function-pointer equality, `Closure` componentwise (function identity
and upvalue list), `Class`/`Instance` by `Rc::ptr_eq`, `BoundMethod` by
method `Rc::ptr_eq` and (recursively) receiver equality, `Nil` = `Nil`;
different variants are never equal. -/
def valueEq : Value → Value → Bool
  | Value.Bool a, Value.Bool b => a == b
  | Value.Double a, Value.Double b => a == b
  | Value.String a, Value.String b => symbolEq a b
  | Value.Function a, Value.Function b => a.id == b.id
  | Value.NativeFunction a _, Value.NativeFunction b _ => a == b
  | Value.Closure a, Value.Closure b =>
      (a.function.id == b.function.id) && upvalueListEq a.upvalues b.upvalues
  | Value.Class a, Value.Class b => a.id == b.id
  | Value.Instance a, Value.Instance b => a.id == b.id
  | Value.BoundMethod r1 m1 _, Value.BoundMethod r2 m2 _ =>
      (m1 == m2) && valueEq r1 r2
  | Value.Nil, Value.Nil => true
  | _, _ => false

/-- Variant discriminant of a `Value`, used to speak about "different value
variants". -/
def Value.ctorIdx : Value → Nat
  | Value.Bool _ => 0
  | Value.Double _ => 1
  | Value.String _ => 2
  | Value.Function _ => 3
  | Value.NativeFunction _ _ => 4
  | Value.Closure _ => 5
  | Value.Class _ => 6
  | Value.Instance _ => 7
  | Value.BoundMethod _ _ _ => 8
  | Value.Nil => 9

/-! ## Vec helpers

The VM's stacks are Rust `Vec`s: index 0 is the bottom, pushes and pops
happen at the end.  We model them as lists with the same index layout. -/

/-- `Vec::pop`: `none` on the empty vector, else the vector without its last
element together with that element. -/
def vecPop {α : Type} : List α → Option (List α × α)
  | [] => none
  | [a] => some ([], a)
  | a :: rest =>
    match vecPop rest with
    | some (s, v) => some (a :: s, v)
    | none => none

@[simp]
theorem vecPop_nil {α : Type} : vecPop ([] : List α) = none := rfl

@[simp]
theorem vecPop_concat {α : Type} (s : List α) (v : α) :
    vecPop (s ++ [v]) = some (s, v) := by
  induction s with
  | nil => rfl
  | cons a rest ih =>
    cases rest with
    | nil => simp [vecPop]
    | cons b tl => simp [vecPop] at ih ⊢; rw [ih]

@[simp]
theorem vecPop_concat2 {α : Type} (s : List α) (a b : α) :
    vecPop (s ++ [a, b]) = some (s ++ [a], b) := by
  have h : s ++ [a, b] = (s ++ [a]) ++ [b] := by simp
  rw [h, vecPop_concat]

/-! ## Constant pool (claim C2)

src/chunk.rs `Chunk::add_constant` and src/compile.rs
`Parser::make_constant`. -/

/-- src/chunk.rs `Chunk::add_constant`: pushes the value onto the constant
pool and returns `constants.len() - 1`. -/
def addConstant (c : Chunk Value) (value : Value) : Chunk Value × Nat :=
  let constants := c.constants ++ [value]
  ({ c with constants := constants }, constants.length - 1)

/-- src/compile.rs `Parser::make_constant`: adds the constant and raises the
compile error "Too many constants in one chunk." when the returned index
exceeds `u8::MAX` (the source then reports the error and substitutes 0). -/
def makeConstant (c : Chunk Value) (value : Value) : Chunk Value × Except String Nat :=
  let r := addConstant c value
  if r.2 > 255 then (r.1, Except.error "Too many constants in one chunk.")
  else (r.1, Except.ok r.2)

/-! ## String interning (claim C8)

src/intern_string.rs `SymbolTable::intern`.  The weak set is modelled as the
list of live `Rc<String>` allocations, looked up by string contents. -/

/-- The intern table: the pool of live shared strings (pointer id together
with contents) and the next fresh pointer id. -/
structure SymbolTable where
  pool : List (Nat × String)
  nextId : Nat

/-- src/intern_string.rs `SymbolTable::intern`: return the shared string for
`name` if one is pooled, else allocate, pool and return a fresh one. -/
def intern (t : SymbolTable) (name : String) : SymbolTable × Symbol :=
  match t.pool.find? (fun p => p.2 == name) with
  | some p => (t, { id := p.1, text := p.2 })
  | none =>
      ({ pool := t.pool ++ [(t.nextId, name)], nextId := t.nextId + 1 },
       { id := t.nextId, text := name })

theorem find?_append_of_none {α : Type} (p : α → Bool) (l1 l2 : List α)
    (h : l1.find? p = none) : (l1 ++ l2).find? p = l2.find? p := by
  induction l1 with
  | nil => simp
  | cons a tl ih =>
    by_cases hp : p a = true
    · rw [List.find?_cons_of_pos _ hp] at h
      exact (Option.some_ne_none _ h).elim
    · rw [List.find?_cons_of_neg _ hp] at h
      rw [List.cons_append, List.find?_cons_of_neg _ hp]
      exact ih h

/-- C8: for one symbol table, interning a text and then interning an equal
text again (the first symbol still pooled) returns symbols with the same
underlying shared-string pointer, hence symbols that compare equal; and
symbol equality is exactly pointer identity of the shared string. -/
theorem intern_identity :
    (∀ (t : SymbolTable) (s : String),
        (intern (intern t s).1 s).2.id = (intern t s).2.id ∧
        symbolEq (intern t s).2 (intern (intern t s).1 s).2 = true) ∧
    (∀ a b : Symbol, symbolEq a b = true ↔ a.id = b.id) := by
  constructor
  · intro t s
    cases hf : t.pool.find? (fun p => p.2 == s) with
    | some p => simp [intern, hf, symbolEq]
    | none =>
      have h2 : (t.pool ++ [(t.nextId, s)]).find? (fun p => p.2 == s)
          = some (t.nextId, s) := by
        rw [find?_append_of_none _ _ _ hf]
        simp [List.find?]
      simp [intern, hf, h2, symbolEq]
  · intro a b
    simp [symbolEq]

/-- C2 counterexample: `add_constant` does not deduplicate.  Adding `Nil` to
a pool that already contains `Nil` appends a second copy and returns the new
index 1 instead of the existing index 0. -/
theorem addConstant_dedup_counterexample :
    (addConstant { code := [], constants := [Value.Nil], lines := [] } Value.Nil).2 = 1 ∧
    (addConstant { code := [], constants := [Value.Nil], lines := [] } Value.Nil).1.constants
      = [Value.Nil, Value.Nil] ∧
    (1 : Nat) ≠ 0 :=
  ⟨rfl, rfl, by decide⟩

/-- C2 amended: `add_constant` always appends the value (first-seen order,
no deduplication) and returns the new index, which equals the old pool
length; `make_constant` raises "Too many constants in one chunk." exactly
when that index exceeds 255. -/
theorem addConstant_appends (c : Chunk Value) (v : Value) :
    (addConstant c v).1.constants = c.constants ++ [v] ∧
    (addConstant c v).2 = c.constants.length ∧
    ((makeConstant c v).2 = Except.error "Too many constants in one chunk." ↔
      255 < c.constants.length) := by
  refine ⟨rfl, by simp [addConstant], ?_⟩
  by_cases hb : 255 < c.constants.length
  · simp [makeConstant, addConstant, hb]
  · simp [makeConstant, addConstant, hb]

/-! ## Binary double opcodes (claim C9) -/

/-- src/vm.rs `VM::binary_double_op`: pop `b`, pop `a`, apply the opcode's
function; when it rejects the operands, raise the runtime error "Operands
must be numbers.".  `none` models the stack-underflow `expect`. -/
def binaryDoubleOp (op : Value → Value → Option Value) (stack : List Value) :
    Option (Except String (List Value)) :=
  match vecPop stack with
  | none => none
  | some (s1, b) =>
    match vecPop s1 with
    | none => none
    | some (s2, a) =>
      match op a b with
      | some result => some (Except.ok (s2 ++ [result]))
      | none => some (Except.error "Operands must be numbers.")

/-- The closure the VM passes to `binary_double_op` for `OpCode::Divide`
(src/vm.rs lines 267-276): defined exactly on two `Double`s, producing
their IEEE-754 binary64 quotient. -/
def divideFn : Value → Value → Option Value
  | Value.Double f1, Value.Double f2 => some (Value.Double (f1 / f2))
  | _, _ => none

/-- One execution of the `Divide` opcode on the given stack. -/
def divideStep (stack : List Value) : Option (Except String (List Value)) :=
  binaryDoubleOp divideFn stack

/-- Whether a value is the `Double` variant. -/
def isDouble : Value → Bool
  | Value.Double _ => true
  | _ => false

theorem divideFn_none (a b : Value) (h : isDouble a = false ∨ isDouble b = false) :
    divideFn a b = none := by
  cases a <;> cases b <;> simp [isDouble, divideFn] at h ⊢

/-- C9: `Divide` succeeds on any two `Double` operands — including a zero
divisor — popping both and pushing their IEEE-754 binary64 quotient, and
raises the runtime error "Operands must be numbers." exactly when at least
one operand is not a `Double`. -/
theorem divide_semantics :
    (∀ (f1 f2 : Float) (rest : List Value),
        divideStep (rest ++ [Value.Double f1, Value.Double f2])
          = some (Except.ok (rest ++ [Value.Double (f1 / f2)]))) ∧
    (∀ (a b : Value) (rest : List Value),
        isDouble a = false ∨ isDouble b = false →
        divideStep (rest ++ [a, b]) = some (Except.error "Operands must be numbers.")) := by
  constructor
  · intro f1 f2 rest
    simp [divideStep, binaryDoubleOp, divideFn]
  · intro a b rest h
    simp [divideStep, binaryDoubleOp, divideFn_none a b h]

/-- C9 witness: concrete non-numeric operands raise the error. -/
theorem divide_semantics_witness :
    isDouble Value.Nil = false ∧
    divideStep [Value.Nil, Value.Bool true] = some (Except.error "Operands must be numbers.") :=
  ⟨rfl, by
    have h := divide_semantics.2 Value.Nil (Value.Bool true) [] (Or.inl rfl)
    simpa using h⟩

/-! ## The `Equal` opcode (claims C10 and C6) -/

/-- src/vm.rs `OpCode::Equal` (lines 281-285): pop `b`, pop `a`, push
`Bool (a == b)`.  It has no error path; `none` models stack underflow. -/
def equalStep (stack : List Value) : Option (List Value) :=
  match vecPop stack with
  | none => none
  | some (s1, b) =>
    match vecPop s1 with
    | none => none
    | some (s2, a) => some (s2 ++ [Value.Bool (valueEq a b)])

/-- C10: `Equal` never raises a runtime error — on any two operands it pops
both and pushes a `Bool` — and operands of different variants always compare
unequal. -/
theorem equal_semantics :
    (∀ (a b : Value) (rest : List Value),
        equalStep (rest ++ [a, b]) = some (rest ++ [Value.Bool (valueEq a b)])) ∧
    (∀ a b : Value, Value.ctorIdx a ≠ Value.ctorIdx b → valueEq a b = false) := by
  constructor
  · intro a b rest
    simp [equalStep]
  · intro a b h
    cases a <;> cases b <;> first
      | rfl
      | exact absurd rfl h

/-- C10 witness: `Nil` and `Bool false` are different variants, compare
unequal, and the opcode pushes `Bool false` without error. -/
theorem equal_semantics_witness :
    Value.ctorIdx Value.Nil ≠ Value.ctorIdx (Value.Bool false) ∧
    valueEq Value.Nil (Value.Bool false) = false ∧
    equalStep [Value.Nil, Value.Bool false] = some [Value.Bool false] :=
  ⟨by decide, equal_semantics.2 _ _ (by decide), by
    have h := equal_semantics.1 Value.Nil (Value.Bool false) []
    simpa [valueEq] using h⟩

/-- A concrete compiled function object shared by several examples. -/
def fn0 : Function Value :=
  { id := 0, name := none, arity := 0,
    chunk := { code := [], constants := [], lines := [] }, upvalueCount := 1 }

/-- C6 counterexample: two closures built over the same `Function` whose
upvalue lists hold *different* upvalue cell objects (distinct `Rc`
allocations, ids 0 and 1) at equal stack locations compare equal under the
`Equal` opcode's value equality — closure equality is not object identity. -/
theorem closureEq_identity_counterexample :
    valueEq
      (Value.Closure { function := fn0,
                       upvalues := [{ id := 0, location := UpvalueLocation.stack 3 }] })
      (Value.Closure { function := fn0,
                       upvalues := [{ id := 1, location := UpvalueLocation.stack 3 }] }) = true ∧
    ({ id := 0, location := UpvalueLocation.stack 3 } : ObjUpvalue Value)
      ≠ { id := 1, location := UpvalueLocation.stack 3 } := by
  refine ⟨rfl, ?_⟩
  intro h
  have : (0 : Nat) = 1 := congrArg ObjUpvalue.id h
  exact absurd this (by decide)

/-- C6 amended: `Equal` relates `Closure` values componentwise — equal iff
their `Function`s are the same object (pointer identity) and their upvalue
lists are elementwise equal by location; likewise `BoundMethod` values
compare by method-object identity plus (recursive) receiver equality.
Distinct closure objects built from the same `Function` with equal upvalue
lists therefore do compare equal. -/
theorem closureEq_componentwise :
    (∀ (f : Function Value) (us vs : List (ObjUpvalue Value)),
        upvalueListEq us vs = true →
        valueEq (Value.Closure { function := f, upvalues := us })
                (Value.Closure { function := f, upvalues := vs }) = true) ∧
    (∀ c d : Closure Value,
        valueEq (Value.Closure c) (Value.Closure d) = true →
        c.function.id = d.function.id ∧ upvalueListEq c.upvalues d.upvalues = true) ∧
    (∀ (r1 r2 : Value) (m1 m2 : Nat) (c1 c2 : Closure Value),
        valueEq (Value.BoundMethod r1 m1 c1) (Value.BoundMethod r2 m2 c2)
          = ((m1 == m2) && valueEq r1 r2)) := by
  refine ⟨?_, ?_, ?_⟩
  · intro f us vs h
    simp [valueEq, h]
  · intro c d h
    simp [valueEq] at h
    exact h
  · intro r1 r2 m1 m2 c1 c2
    rfl

/-- C6 witness: two upvalue-free closures over the same function compare
equal. -/
theorem closureEq_componentwise_witness :
    upvalueListEq [] [] = true ∧
    valueEq (Value.Closure { function := fn0, upvalues := [] })
            (Value.Closure { function := fn0, upvalues := [] }) = true :=
  ⟨rfl, closureEq_componentwise.1 fn0 [] [] rfl⟩

/-! ## Compiler locals (claim C5) -/

/-- src/tokens.rs `TokenType`. -/
inductive TokenType where
  | LeftParen
  | RightParen
  | LeftBrace
  | RightBrace
  | Comma
  | Dot
  | Minus
  | Plus
  | Semicolon
  | Slash
  | Star
  | Bang
  | BangEqual
  | Equal
  | EqualEqual
  | Greater
  | GreaterEqual
  | Less
  | LessEqual
  | Identifier
  | String
  | Number
  | And
  | Class
  | Else
  | False
  | Fun
  | For
  | If
  | Nil
  | Or
  | Print
  | Return
  | Super
  | This
  | True
  | Var
  | While
  | Error
  | EOF
  deriving DecidableEq

/-- src/tokens.rs `Token`; the lexeme slice of source characters becomes a
string. -/
structure Token where
  tokenType : TokenType
  lexeme : String
  line : Nat
  deriving DecidableEq

/-- src/function.rs `FunctionType`. -/
inductive FunctionType where
  | Function
  | Script
  | Method
  | Initializer
  deriving DecidableEq

/-- src/compile.rs `Local`: a declared local variable; depth −1 is the
declared-but-uninitialised sentinel. -/
structure Local where
  name : Token
  depth : Int
  isCaptured : Bool
  deriving DecidableEq

/-- src/compile.rs `Upvalue` (the compiler-side descriptor). -/
structure Upvalue where
  index : Nat
  isLocal : Bool
  deriving DecidableEq

/-- The per-function compiler frame (src/compile.rs `Compiler`), restricted
to the fields the claims touch (the function builder is omitted). -/
structure Compiler where
  locals : List Local
  upvalues : List Upvalue
  scopeDepth : Nat

/-- src/compile.rs `Compiler::new` (lines 1011-1027): the first locals slot
is reserved for internal use (`this` for methods/initialisers/script, the
empty lexeme for plain functions). -/
def Compiler.new (kind : FunctionType) : Compiler :=
  let token : Token :=
    if kind ≠ FunctionType.Function then
      { tokenType := TokenType.EOF, lexeme := "this", line := 0 }
    else
      { tokenType := TokenType.EOF, lexeme := "", line := 0 }
  { locals := [{ name := token, depth := 0, isCaptured := false }],
    upvalues := [],
    scopeDepth := 0 }

/-- src/compile.rs `Parser::add_local` (lines 465-472): push a new
uninitialised local while the locals vector holds fewer than
`u8::MAX` = 255 entries, else report "Too many local variables in
function.". -/
def addLocal (c : Compiler) (name : Token) : Compiler × Option String :=
  if c.locals.length < 255 then
    ({ c with locals := c.locals ++ [{ name := name, depth := -1, isCaptured := false }] },
     none)
  else
    (c, some "Too many local variables in function.")

/-- A sequence of local declarations in one function body, collecting the
compile errors they report. -/
def declareLocals (c : Compiler) : List Token → Compiler × List String
  | [] => (c, [])
  | t :: ts =>
    let r1 := addLocal c t
    let r2 := declareLocals r1.1 ts
    (r2.1, r1.2.toList ++ r2.2)

theorem declareLocals_spec (ts : List Token) (c : Compiler)
    (h : c.locals.length ≤ 255) :
    (declareLocals c ts).2
      = List.replicate (c.locals.length + ts.length - 255)
          "Too many local variables in function." ∧
    (declareLocals c ts).1.locals.length = min (c.locals.length + ts.length) 255 := by
  induction ts generalizing c with
  | nil =>
    refine ⟨by simp [declareLocals]; omega, ?_⟩
    simp [declareLocals]
    omega
  | cons t ts ih =>
    by_cases hlt : c.locals.length < 255
    · have h1 : (addLocal c t).2 = none := by simp [addLocal, hlt]
      have h2 : (addLocal c t).1.locals.length = c.locals.length + 1 := by
        simp [addLocal, hlt]
      obtain ⟨e1, e2⟩ := ih (addLocal c t).1 (by omega)
      constructor
      · have hd : (declareLocals c (t :: ts)).2 = (declareLocals (addLocal c t).1 ts).2 := by
          simp [declareLocals, h1]
        have harith : (addLocal c t).1.locals.length + ts.length - 255
            = c.locals.length + (t :: ts).length - 255 := by
          rw [h2, List.length_cons]
          omega
        rw [hd, e1, harith]
      · have hd : (declareLocals c (t :: ts)).1 = (declareLocals (addLocal c t).1 ts).1 := by
          simp [declareLocals]
        have harith : min ((addLocal c t).1.locals.length + ts.length) 255
            = min (c.locals.length + (t :: ts).length) 255 := by
          rw [h2, List.length_cons]
          omega
        rw [hd, e2, harith]
    · have h255 : c.locals.length = 255 := by omega
      have h1 : (addLocal c t).2 = some "Too many local variables in function." := by
        simp [addLocal, hlt]
      have h2 : (addLocal c t).1 = c := by simp [addLocal, hlt]
      obtain ⟨e1, e2⟩ := ih c h
      constructor
      · have hd : (declareLocals c (t :: ts)).2
            = "Too many local variables in function." :: (declareLocals c ts).2 := by
          simp [declareLocals, h1, h2]
        rw [hd, e1, h255]
        have harith : 255 + (t :: ts).length - 255 = (255 + ts.length - 255) + 1 := by
          rw [List.length_cons]
          omega
        rw [harith, List.replicate_succ]
      · have hd : (declareLocals c (t :: ts)).1 = (declareLocals c ts).1 := by
          simp [declareLocals, h2]
        rw [hd, e2, h255, List.length_cons]
        omega

/-- C5 counterexample: already the 255th local declaration of one function
reports "Too many local variables in function." — yet 255 ≤ 256, so the
claimed capacity of 256 locals (error only at the 257th) is wrong. -/
theorem locals_255_counterexample :
    (declareLocals (Compiler.new FunctionType.Function)
        (List.replicate 255 { tokenType := TokenType.Identifier, lexeme := "x", line := 1 })).2
      = ["Too many local variables in function."] ∧
    (255 : Nat) ≤ 256 := by
  have hnew : (Compiler.new FunctionType.Function).locals.length = 1 := rfl
  obtain ⟨e1, _⟩ := declareLocals_spec
    (List.replicate 255 { tokenType := TokenType.Identifier, lexeme := "x", line := 1 })
    (Compiler.new FunctionType.Function) (by rw [hnew]; omega)
  refine ⟨?_, by omega⟩
  rw [e1, hnew, List.length_replicate]
  rfl

/-- C5 amended: the locals vector of one function — slot 0 being reserved —
is capped at 255 entries (`u8::MAX`), so a function may declare up to 254
locals without error, and it is exactly the 255th declaration that first
triggers "Too many local variables in function.". -/
theorem locals_limit :
    (∀ n : Nat,
        (declareLocals (Compiler.new FunctionType.Function)
            (List.replicate n { tokenType := TokenType.Identifier, lexeme := "x", line := 1 })).2
          = [] ↔ n ≤ 254) ∧
    (declareLocals (Compiler.new FunctionType.Function)
        (List.replicate 255 { tokenType := TokenType.Identifier, lexeme := "x", line := 1 })).2
      = ["Too many local variables in function."] := by
  have hnew : (Compiler.new FunctionType.Function).locals.length = 1 := rfl
  constructor
  · intro n
    obtain ⟨e1, _⟩ := declareLocals_spec
      (List.replicate n { tokenType := TokenType.Identifier, lexeme := "x", line := 1 })
      (Compiler.new FunctionType.Function) (by rw [hnew]; omega)
    rw [e1, hnew, List.length_replicate]
    simp only [List.replicate_eq_nil_iff]
    omega
  · obtain ⟨e1, _⟩ := declareLocals_spec
      (List.replicate 255 { tokenType := TokenType.Identifier, lexeme := "x", line := 1 })
      (Compiler.new FunctionType.Function) (by rw [hnew]; omega)
    rw [e1, hnew, List.length_replicate]
    rfl

/-! ## The Pratt rule table (claim C1) -/

/-- src/compile.rs `Precedence`. -/
inductive Precedence where
  | None
  | Assignment
  | Or
  | And
  | Equality
  | Comparison
  | Term
  | Factor
  | Unary
  | Call
  | Primary
  deriving DecidableEq

/-- The compile actions the source installs in prefix position, named after
the `Parser` method each table closure calls. -/
inductive PrefixFn where
  | grouping
  | unary
  | variableFn
  | stringFn
  | numberFn
  | literal
  | thisFn
  deriving DecidableEq

/-- The compile actions the source installs in infix position. -/
inductive InfixFn where
  | call
  | dot
  | binary
  | andFn
  | orFn
  deriving DecidableEq

/-- src/compile.rs `ParseRule`: optional prefix action, optional infix
action, precedence level. -/
structure ParseRule where
  prefixFn : Option PrefixFn
  infixFn : Option InfixFn
  precedence : Precedence
  deriving DecidableEq

/-- src/compile.rs `ParseRules::new` (lines 951-996), row by row. -/
def parseRulesNew : TokenType → ParseRule
  | TokenType.LeftParen => ⟨some PrefixFn.grouping, some InfixFn.call, Precedence.Call⟩
  | TokenType.RightParen => ⟨none, none, Precedence.None⟩
  | TokenType.LeftBrace => ⟨none, none, Precedence.None⟩
  | TokenType.RightBrace => ⟨none, none, Precedence.None⟩
  | TokenType.Comma => ⟨none, none, Precedence.None⟩
  | TokenType.Dot => ⟨none, some InfixFn.dot, Precedence.Call⟩
  | TokenType.Minus => ⟨some PrefixFn.unary, some InfixFn.binary, Precedence.Term⟩
  | TokenType.Plus => ⟨none, some InfixFn.binary, Precedence.Term⟩
  | TokenType.Semicolon => ⟨none, none, Precedence.None⟩
  | TokenType.Slash => ⟨none, some InfixFn.binary, Precedence.Factor⟩
  | TokenType.Star => ⟨none, some InfixFn.binary, Precedence.Factor⟩
  | TokenType.Bang => ⟨some PrefixFn.unary, none, Precedence.None⟩
  | TokenType.BangEqual => ⟨none, some InfixFn.binary, Precedence.Equality⟩
  | TokenType.Equal => ⟨none, none, Precedence.None⟩
  | TokenType.EqualEqual => ⟨none, some InfixFn.binary, Precedence.Equality⟩
  | TokenType.Greater => ⟨none, some InfixFn.binary, Precedence.Comparison⟩
  | TokenType.GreaterEqual => ⟨none, some InfixFn.binary, Precedence.Comparison⟩
  | TokenType.Less => ⟨none, some InfixFn.binary, Precedence.Comparison⟩
  | TokenType.LessEqual => ⟨none, some InfixFn.binary, Precedence.Comparison⟩
  | TokenType.Identifier => ⟨some PrefixFn.variableFn, none, Precedence.None⟩
  | TokenType.String => ⟨some PrefixFn.stringFn, none, Precedence.None⟩
  | TokenType.Number => ⟨some PrefixFn.numberFn, none, Precedence.None⟩
  | TokenType.And => ⟨none, some InfixFn.andFn, Precedence.And⟩
  | TokenType.Class => ⟨none, none, Precedence.None⟩
  | TokenType.Else => ⟨none, none, Precedence.None⟩
  | TokenType.False => ⟨some PrefixFn.literal, none, Precedence.None⟩
  | TokenType.Fun => ⟨none, none, Precedence.None⟩
  | TokenType.For => ⟨none, none, Precedence.None⟩
  | TokenType.If => ⟨none, none, Precedence.None⟩
  | TokenType.Nil => ⟨some PrefixFn.literal, none, Precedence.None⟩
  | TokenType.Or => ⟨none, some InfixFn.orFn, Precedence.Or⟩
  | TokenType.Print => ⟨none, none, Precedence.None⟩
  | TokenType.Return => ⟨none, none, Precedence.None⟩
  | TokenType.Super => ⟨none, none, Precedence.None⟩
  | TokenType.This => ⟨some PrefixFn.thisFn, none, Precedence.None⟩
  | TokenType.True => ⟨some PrefixFn.literal, none, Precedence.None⟩
  | TokenType.Var => ⟨none, none, Precedence.None⟩
  | TokenType.While => ⟨none, none, Precedence.None⟩
  | TokenType.Error => ⟨none, none, Precedence.None⟩
  | TokenType.EOF => ⟨none, none, Precedence.None⟩

/-- The prefix-dispatch fragment of src/compile.rs `parse_precedence`
(lines 670-700): the previous token's prefix rule runs; when the rule table
provides none, the parser reports "Expected expression.". -/
def prefixDispatch (t : TokenType) : Option String :=
  match (parseRulesNew t).prefixFn with
  | some _ => none
  | none => some "Expected expression."

/-- C1 (code bug): the rule table installs no prefix action for `super`
(and src/compile.rs contains no super-expression compile function at all),
so a `super` token in expression position — e.g. in the method body
`super.m()` of the repository's own `super_method_call` test — makes
`parse_precedence` report the compile error "Expected expression.".  The
neighbouring `this` row shows the installed-prefix shape such a rule would
have. -/
theorem super_rule_missing :
    (parseRulesNew TokenType.Super).prefixFn = none ∧
    prefixDispatch TokenType.Super = some "Expected expression." ∧
    (parseRulesNew TokenType.This).prefixFn = some PrefixFn.thisFn :=
  ⟨rfl, rfl, rfl⟩

/-! ## Runtime error reporting (claim C4) -/

/-- src/vm.rs `CallFrame`: the executing closure, its instruction pointer
and its slot base in the value stack. -/
structure CallFrame where
  closure : Closure Value
  ip : Nat
  slots : Nat

/-- src/chunk.rs `Chunk::get_source_code_line`: `self.lines[index]` (the
source panics out of bounds; the model totalises with 0). -/
def getSourceCodeLine (c : Chunk Value) (index : Nat) : Nat :=
  (c.lines.get? index).getD 0

/-- One stack-trace line of src/vm.rs `VM::runtime_error` (lines 764-782):
`writeln!(error_output, "[line {}] in {}(): {}", line, name, message)`,
where `line` is the source-line lookup at `ip - 1` and `name` the
function's name, or "script" for the nameless top-level function. -/
def frameErrorLine (f : CallFrame) (message : String) : String :=
  let name :=
    match f.closure.function.name with
    | some s => s.text
    | none => "script"
  "[line " ++ toString (getSourceCodeLine f.closure.function.chunk (f.ip - 1))
    ++ "] in " ++ name ++ "(): " ++ message

/-- src/vm.rs `VM::runtime_error`: walk the call frames from innermost (the
end of the frame vector) to outermost writing one line each to the error
sink, then `reset_stack` clears the value stack and the frame stack.
Result: (error-sink lines, value stack, frame stack). -/
def runtimeError (frames : List CallFrame) (stack : List Value) (message : String) :
    List String × List Value × List CallFrame :=
  (go message frames.reverse, [], [])
where
  go (message : String) : List CallFrame → List String
    | [] => []
    | f :: rest => frameErrorLine f message :: go message rest

/-- C4 counterexample: the trace line for a script frame is
`[line 7] in script(): boom` — with `()` appended to the name — not the
claimed `[line 7] in script: boom`. -/
theorem runtimeError_paren_counterexample :
    (runtimeError
        [{ closure :=
             { function :=
                 { id := 0, name := none, arity := 0,
                   chunk := { code := [], constants := [], lines := [5, 7] },
                   upvalueCount := 0 },
               upvalues := [] },
           ip := 2, slots := 0 }]
        [Value.Nil] "boom").1
      = ["[line 7] in script(): boom"] ∧
    "[line 7] in script(): boom" ≠ "[line 7] in script: boom" := by
  refine ⟨rfl, by decide⟩

/-- C4 amended: on a runtime error the VM writes one line per call frame,
innermost to outermost, each of the exact form
`[line L] in <name|script>(): <message>` — i.e. with `()` appended to the
function name, `script()` for the nameless top-level function — where `L`
is the source-line map lookup at `ip − 1` of that frame; afterwards both
the value stack and the call-frame stack are empty. -/
theorem runtimeError_format (frames : List CallFrame) (stack : List Value) (message : String) :
    (runtimeError frames stack message).1
      = frames.reverse.map (fun f =>
          "[line " ++ toString (getSourceCodeLine f.closure.function.chunk (f.ip - 1))
            ++ "] in "
            ++ (match f.closure.function.name with
                | some s => s.text
                | none => "script")
            ++ "(): " ++ message) ∧
    (runtimeError frames stack message).2.1 = [] ∧
    (runtimeError frames stack message).2.2 = [] := by
  refine ⟨?_, rfl, rfl⟩
  show runtimeError.go message frames.reverse = _
  generalize frames.reverse = l
  induction l with
  | nil => rfl
  | cons f rest ih => simp [runtimeError.go, frameErrorLine, ih]

/-! ## Classes and the `Inherit` opcode (claim C3) -/

/-- A method-table entry (src/classes.rs): an `Rc<Closure>`; `rcId` models
the `Rc` pointer, shared when `set_method_ref` clones the `Rc`. -/
structure RcClosure where
  rcId : Nat
  closure : Closure Value

/-- src/classes.rs `Clazz`: a name and a method table.  The
`HashMap<Symbol, Rc<Closure>>` becomes an association list keyed by
`Symbol` identity (unique keys; lookup takes the first match, insert
replaces in place). -/
structure Clazz where
  name : Symbol
  methods : List (Symbol × RcClosure)

/-- `HashMap::insert` on a method table: replace the value of an existing
key (keys compare by `Symbol` identity, i.e. by `id`), else append. -/
def methodsInsert : List (Symbol × RcClosure) → Symbol → RcClosure → List (Symbol × RcClosure)
  | [], k, v => [(k, v)]
  | (k0, v0) :: tl, k, v =>
    if symbolEq k0 k then (k0, v) :: tl else (k0, v0) :: methodsInsert tl k v

/-- `HashMap::get` on a method table. -/
def methodsLookup : List (Symbol × RcClosure) → Symbol → Option RcClosure
  | [], _ => none
  | (k0, v0) :: tl, k => if symbolEq k0 k then some v0 else methodsLookup tl k

/-- The shared mutable class objects (`Rc<RefCell<Clazz>>`), addressed by
`ClazzRef` identity. -/
def ClassHeap : Type := Nat → Clazz

/-- Writing one class object back through its `ClazzRef`. -/
def updateClazz (heap : ClassHeap) (i : Nat) (c : Clazz) : ClassHeap :=
  fun j => if j = i then c else heap j

/-- The copy loop of `OpCode::Inherit` (src/vm.rs lines 463-467): every
(name → closure) entry of the superclass's method table is inserted into
the subclass's table. -/
def copyMethods (sub : Clazz) (superMethods : List (Symbol × RcClosure)) : Clazz :=
  { sub with
    methods := superMethods.foldl (fun acc p => methodsInsert acc p.1 p.2) sub.methods }

/-- The outcome of one `Inherit` step. -/
inductive InheritResult where
  | ok (heap : ClassHeap) (stack : List Value)
  | rtErr (message : String)

/-- Whether a value is the `Class` variant. -/
def isClass : Value → Bool
  | Value.Class _ => true
  | _ => false

/-- src/vm.rs `OpCode::Inherit` (lines 459-476): with stack
`… superclass subclass`, check that `stack[len − 2]` is a `Class` (else the
runtime error "Superclass must be a class."); copy the superclass's methods
into the subclass on top (a non-`Class` top is an internal panic, modelled
by `none`, as is a stack of fewer than two values); pop one value. -/
def inheritStep (heap : ClassHeap) (stack : List Value) : Option InheritResult :=
  match vecPop stack with
  | none => none
  | some (stack1, top) =>
    match stack1.getLast? with
    | none => none
    | some below =>
      match below with
      | Value.Class superRef =>
        match top with
        | Value.Class subRef =>
            some (InheritResult.ok
              (updateClazz heap subRef.id
                (copyMethods (heap subRef.id) (heap superRef.id).methods))
              stack1)
        | _ => none
      | _ => some (InheritResult.rtErr "Superclass must be a class.")

theorem methodsLookup_insert_self (ms : List (Symbol × RcClosure)) (k : Symbol)
    (v : RcClosure) (k2 : Symbol) (h : k2.id = k.id) :
    methodsLookup (methodsInsert ms k v) k2 = some v := by
  induction ms with
  | nil => simp [methodsInsert, methodsLookup, symbolEq, h]
  | cons p tl ih =>
    obtain ⟨k0, v0⟩ := p
    by_cases hk : k0.id = k.id
    · simp [methodsInsert, methodsLookup, symbolEq, hk, h]
    · simp [methodsInsert, methodsLookup, symbolEq, hk, h, ih]

theorem methodsLookup_insert_other (ms : List (Symbol × RcClosure)) (k : Symbol)
    (v : RcClosure) (k2 : Symbol) (h : k2.id ≠ k.id) :
    methodsLookup (methodsInsert ms k v) k2 = methodsLookup ms k2 := by
  induction ms with
  | nil =>
    simp [methodsInsert, methodsLookup, symbolEq]
    intro hh
    exact absurd hh.symm h
  | cons p tl ih =>
    obtain ⟨k0, v0⟩ := p
    have h2 : ¬ k.id = k2.id := fun hh => h hh.symm
    by_cases hk : k0.id = k.id
    · have hk2 : ¬ k0.id = k2.id := by omega
      simp [methodsInsert, methodsLookup, symbolEq, hk, hk2, h2]
    · by_cases hk2 : k0.id = k2.id
      · simp [methodsInsert, methodsLookup, symbolEq, hk, hk2, h]
      · simp [methodsInsert, methodsLookup, symbolEq, hk, hk2, ih]

theorem methodsLookup_foldl_other (k : Symbol) :
    ∀ (entries ms : List (Symbol × RcClosure)),
      (∀ p ∈ entries, p.1.id ≠ k.id) →
      methodsLookup (entries.foldl (fun acc p => methodsInsert acc p.1 p.2) ms) k
        = methodsLookup ms k := by
  intro entries
  induction entries with
  | nil => intro ms _; rfl
  | cons p tl ih =>
    intro ms h
    simp only [List.foldl_cons]
    rw [ih _ (fun q hq => h q (List.mem_cons_of_mem _ hq))]
    exact methodsLookup_insert_other ms p.1 p.2 k
      (fun hh => h p (List.mem_cons_self p tl) hh.symm)

theorem methodsLookup_copy (k : Symbol) (v : RcClosure) :
    ∀ (entries ms : List (Symbol × RcClosure)),
      (entries.map (fun p => p.1.id)).Nodup →
      methodsLookup entries k = some v →
      methodsLookup (entries.foldl (fun acc p => methodsInsert acc p.1 p.2) ms) k = some v := by
  intro entries
  induction entries with
  | nil =>
    intro ms _ hl
    simp [methodsLookup] at hl
  | cons p tl ih =>
    intro ms hnd hl
    obtain ⟨k1, v1⟩ := p
    simp only [List.map_cons, List.nodup_cons] at hnd
    simp only [List.foldl_cons]
    by_cases hk : k1.id = k.id
    · have hv : v1 = v := by
        simp [methodsLookup, symbolEq, hk] at hl
        exact hl
      have htl : ∀ q ∈ tl, q.1.id ≠ k.id := by
        intro q hq hqk
        exact hnd.1 (by
          rw [← hk] at hqk
          rw [← hqk]
          exact List.mem_map_of_mem _ hq)
      rw [methodsLookup_foldl_other k tl _ htl]
      rw [methodsLookup_insert_self ms k1 v1 k hk.symm, hv]
    · have hl2 : methodsLookup tl k = some v := by
        simpa [methodsLookup, symbolEq, hk] using hl
      exact ih (methodsInsert ms k1 v1) hnd.2 hl2

/-- C3 (partly amended): executing `Inherit` with stack
`… superclass subclass` (both `Class` values of distinct class objects)
copies every (name → closure) entry of the superclass's method table into
the subclass's, pops exactly one value — so the value remaining on top is
the SUPERCLASS — and raises the runtime error "Superclass must be a class."
whenever the value below the top is not a `Class`. -/
theorem inherit_semantics :
    (∀ (heap : ClassHeap) (rest : List Value) (superRef subRef : ClazzRef),
        superRef.id ≠ subRef.id →
        ((heap superRef.id).methods.map (fun p => p.1.id)).Nodup →
        match inheritStep heap (rest ++ [Value.Class superRef, Value.Class subRef]) with
        | some (InheritResult.ok heap2 stackAfter) =>
            stackAfter = rest ++ [Value.Class superRef] ∧
            (∀ (k : Symbol) (v : RcClosure),
                methodsLookup (heap superRef.id).methods k = some v →
                methodsLookup (heap2 subRef.id).methods k = some v) ∧
            heap2 superRef.id = heap superRef.id
        | _ => False) ∧
    (∀ (heap : ClassHeap) (rest : List Value) (below top : Value),
        isClass below = false →
        inheritStep heap (rest ++ [below, top])
          = some (InheritResult.rtErr "Superclass must be a class.")) := by
  constructor
  · intro heap rest superRef subRef hne hnd
    simp only [inheritStep, vecPop_concat2, List.getLast?_concat]
    refine ⟨trivial, ?_, ?_⟩
    · intro k v hv
      have hupd : updateClazz heap subRef.id
          (copyMethods (heap subRef.id) (heap superRef.id).methods) subRef.id
          = copyMethods (heap subRef.id) (heap superRef.id).methods := by
        simp [updateClazz]
      rw [hupd]
      exact methodsLookup_copy k v (heap superRef.id).methods
        (heap subRef.id).methods hnd hv
    · have hne2 : ¬ superRef.id = subRef.id := hne
      simp [updateClazz, hne2]
  · intro heap rest below top h
    cases below
    case Class r => simp [isClass] at h
    all_goals simp [inheritStep, vecPop_concat2, List.getLast?_concat]

/-- The stack component of an `ok` Inherit outcome. -/
def inheritStackAfter : Option InheritResult → Option (List Value)
  | some (InheritResult.ok _ stack) => some stack
  | _ => none

/-- A concrete two-class heap: class 0 carries one method `m`, class 1 has
an empty table. -/
def heapW : ClassHeap := fun i =>
  if i = 0 then
    { name := { id := 10, text := "A" },
      methods := [({ id := 11, text := "m" },
                   { rcId := 0, closure := { function := fn0, upvalues := [] } })] }
  else
    { name := { id := 12, text := "B" }, methods := [] }

/-- C3 counterexample: with stack `superclass subclass` =
`Class 0, Class 1`, the value remaining on top after `Inherit` is the
SUPERCLASS `Class 0`, not the claimed subclass `Class 1`. -/
theorem inherit_stack_counterexample :
    inheritStackAfter (inheritStep heapW [Value.Class { id := 0 }, Value.Class { id := 1 }])
      = some [Value.Class { id := 0 }] ∧
    ({ id := 0 } : ClazzRef) ≠ { id := 1 } :=
  ⟨rfl, by decide⟩

/-- C3 witness: the method-copy part at the concrete heap `heapW`. -/
theorem inherit_semantics_witness :
    (({ id := 0 } : ClazzRef).id ≠ ({ id := 1 } : ClazzRef).id) ∧
    ((heapW ({ id := 0 } : ClazzRef).id).methods.map (fun p => p.1.id)).Nodup ∧
    (match inheritStep heapW
        ([] ++ [Value.Class { id := 0 }, Value.Class { id := 1 }]) with
     | some (InheritResult.ok heap2 stackAfter) =>
         stackAfter = [] ++ [Value.Class { id := 0 }] ∧
         (∀ (k : Symbol) (v : RcClosure),
             methodsLookup (heapW ({ id := 0 } : ClazzRef).id).methods k = some v →
             methodsLookup (heap2 ({ id := 1 } : ClazzRef).id).methods k = some v) ∧
         heap2 ({ id := 0 } : ClazzRef).id = heapW ({ id := 0 } : ClazzRef).id
     | _ => False) ∧
    isClass Value.Nil = false ∧
    inheritStep heapW ([] ++ [Value.Nil, Value.Class { id := 1 }])
      = some (InheritResult.rtErr "Superclass must be a class.") :=
  ⟨by decide, by decide,
   inherit_semantics.1 heapW [] { id := 0 } { id := 1 } (by decide) (by decide),
   rfl,
   inherit_semantics.2 heapW [] Value.Nil (Value.Class { id := 1 }) rfl⟩

/-! ## The `Return` opcode (claim C7) -/

/-- src/vm.rs `VM::close_upvalues` (lines 528-548): walk the open-upvalue
list; every entry whose stack slot is ≥ `last` is removed and its cell set
to a fresh heap cell holding the stack value at its slot; the others stay.
Returns (remaining open list, closed cells in encounter order, next fresh
cell id).  `none` models the source's panics (heap-located open entry,
out-of-range slot). -/
def closeUpvalues (stack : List Value) (last : Nat) :
    List (ObjUpvalue Value) → Nat →
    Option (List (ObjUpvalue Value) × List (ObjUpvalue Value) × Nat)
  | [], fresh => some ([], [], fresh)
  | u :: rest, fresh =>
    match u.location with
    | UpvalueLocation.stack s =>
      if last ≤ s then
        match stack.get? s with
        | none => none
        | some val =>
          match closeUpvalues stack last rest (fresh + 1) with
          | none => none
          | some (rem, closed, fr) =>
              some (rem, { u with location := UpvalueLocation.heap fresh val } :: closed, fr)
      else
        match closeUpvalues stack last rest fresh with
        | none => none
        | some (rem, closed, fr) => some (u :: rem, closed, fr)
    | UpvalueLocation.heap _ _ => none

/-- The outcome of one `Return` step: halt (last frame returned) or
continue, each carrying the value stack, the remaining open-upvalue list
and the cells that were just closed (they stay shared with any capturing
closures). -/
inductive ReturnOutcome where
  | halt (stack : List Value) (openUpvalues : List (ObjUpvalue Value))
      (closed : List (ObjUpvalue Value))
  | cont (stack : List Value) (frames : List CallFrame)
      (openUpvalues : List (ObjUpvalue Value)) (closed : List (ObjUpvalue Value))

/-- src/vm.rs `OpCode::Return` (lines 103-116): pop the return value, pop
the call frame, close the open upvalues at or above the frame's slot base;
if no frames remain, also pop the script callee and halt successfully,
else truncate the stack to the slot base and push the value. -/
def returnStep (stack : List Value) (frames : List CallFrame)
    (openUps : List (ObjUpvalue Value)) (fresh : Nat) : Option ReturnOutcome :=
  match vecPop stack with
  | none => none
  | some (stack1, value) =>
    match vecPop frames with
    | none => none
    | some (frames1, frame) =>
      match closeUpvalues stack1 frame.slots openUps fresh with
      | none => none
      | some (rem, closed, _) =>
        if frames1.isEmpty then
          some (ReturnOutcome.halt stack1.dropLast rem closed)
        else
          some (ReturnOutcome.cont (stack1.take frame.slots ++ [value]) frames1 rem closed)

/-- An open upvalue strictly below the slot bound (stays open). -/
def openSlotBelow (last : Nat) (u : ObjUpvalue Value) : Bool :=
  match u.location with
  | UpvalueLocation.stack s => decide (s < last)
  | _ => false

/-- An open upvalue at or above the slot bound (gets closed). -/
def openSlotAtLeast (last : Nat) (u : ObjUpvalue Value) : Bool :=
  match u.location with
  | UpvalueLocation.stack s => decide (last ≤ s)
  | _ => false

/-- The value held by a closed (heap) cell. -/
def heapValueOf (u : ObjUpvalue Value) : Option Value :=
  match u.location with
  | UpvalueLocation.heap _ v => some v
  | _ => none

/-- The stack slot of an open upvalue (0 for a heap cell). -/
def openSlotOf (u : ObjUpvalue Value) : Nat :=
  match u.location with
  | UpvalueLocation.stack s => s
  | _ => 0

theorem closeUpvalues_spec (stack : List Value) (last : Nat) :
    ∀ (ups : List (ObjUpvalue Value)) (fresh : Nat),
      (∀ u ∈ ups, ∃ s, u.location = UpvalueLocation.stack s ∧ s < stack.length) →
      match closeUpvalues stack last ups fresh with
      | some (rem, closed, _) =>
          rem = ups.filter (openSlotBelow last) ∧
          closed.map ObjUpvalue.id = (ups.filter (openSlotAtLeast last)).map ObjUpvalue.id ∧
          closed.map heapValueOf
            = (ups.filter (openSlotAtLeast last)).map (fun u => stack.get? (openSlotOf u))
      | none => False := by
  intro ups
  induction ups with
  | nil =>
    intro fresh _
    simp [closeUpvalues]
  | cons u rest ih =>
    intro fresh h
    obtain ⟨s, hs, hlt⟩ := h u (List.mem_cons_self u rest)
    have hrest : ∀ w ∈ rest, ∃ s, w.location = UpvalueLocation.stack s ∧ s < stack.length :=
      fun w hw => h w (List.mem_cons_of_mem _ hw)
    have hget : ∃ val, stack.get? s = some val := by
      rw [List.get?_eq_get hlt]
      exact ⟨_, rfl⟩
    obtain ⟨val, hval⟩ := hget
    by_cases hcl : last ≤ s
    · have hthis := ih (fresh + 1) hrest
      cases hcr : closeUpvalues stack last rest (fresh + 1) with
      | none => rw [hcr] at hthis; exact hthis.elim
      | some triple =>
        obtain ⟨rem, closed, fr⟩ := triple
        rw [hcr] at hthis
        obtain ⟨e1, e2, e3⟩ := hthis
        simp only [closeUpvalues, hs, hcl, if_pos, hval, hcr]
        have hbelow : openSlotBelow last u = false := by
          simp [openSlotBelow, hs]
          omega
        have hatleast : openSlotAtLeast last u = true := by
          simp [openSlotAtLeast, hs]
          omega
        have hval2 : stack[s]? = some val := by
          rw [← List.get?_eq_getElem?]
          exact hval
        refine ⟨?_, ?_, ?_⟩
        · simp [List.filter_cons, hbelow, e1]
        · simp [List.filter_cons, hatleast, e2]
        · simp [List.filter_cons, hatleast, e3, heapValueOf, openSlotOf, hs, hval2]
    · have hthis := ih fresh hrest
      cases hcr : closeUpvalues stack last rest fresh with
      | none => rw [hcr] at hthis; exact hthis.elim
      | some triple =>
        obtain ⟨rem, closed, fr⟩ := triple
        rw [hcr] at hthis
        obtain ⟨e1, e2, e3⟩ := hthis
        simp only [closeUpvalues, hs, hcl, if_neg, hcr]
        have hbelow : openSlotBelow last u = true := by
          simp [openSlotBelow, hs]
          omega
        have hatleast : openSlotAtLeast last u = false := by
          simp [openSlotAtLeast, hs]
          omega
        refine ⟨?_, ?_, ?_⟩
        · simp [List.filter_cons, hbelow, e1]
        · simp [List.filter_cons, hatleast, e2]
        · simp [List.filter_cons, hatleast, e3]

/-- C7: executing `Return` pops the return value, closes exactly the open
upvalues whose stack slot is ≥ the returning frame's slot base (each closed
cell holding the stack value at its slot), and pops the call frame; when
call frames remain, the value stack is truncated to the slot base and the
value pushed; otherwise the script callee is also popped and execution
halts successfully. -/
theorem return_semantics
    (rest : List Value) (value : Value) (fs : List CallFrame) (fr : CallFrame)
    (ups : List (ObjUpvalue Value)) (fresh : Nat)
    (h : ∀ u ∈ ups, ∃ s, u.location = UpvalueLocation.stack s ∧ s < rest.length) :
    match returnStep (rest ++ [value]) (fs ++ [fr]) ups fresh with
    | some (ReturnOutcome.halt stackAfter rem closed) =>
        fs = [] ∧ stackAfter = rest.dropLast ∧
        rem = ups.filter (openSlotBelow fr.slots) ∧
        closed.map ObjUpvalue.id = (ups.filter (openSlotAtLeast fr.slots)).map ObjUpvalue.id ∧
        closed.map heapValueOf
          = (ups.filter (openSlotAtLeast fr.slots)).map (fun u => rest.get? (openSlotOf u))
    | some (ReturnOutcome.cont stackAfter framesAfter rem closed) =>
        fs ≠ [] ∧ framesAfter = fs ∧ stackAfter = rest.take fr.slots ++ [value] ∧
        rem = ups.filter (openSlotBelow fr.slots) ∧
        closed.map ObjUpvalue.id = (ups.filter (openSlotAtLeast fr.slots)).map ObjUpvalue.id ∧
        closed.map heapValueOf
          = (ups.filter (openSlotAtLeast fr.slots)).map (fun u => rest.get? (openSlotOf u))
    | none => False := by
  have hclose := closeUpvalues_spec rest fr.slots ups fresh h
  simp only [returnStep, vecPop_concat]
  cases hcr : closeUpvalues rest fr.slots ups fresh with
  | none => rw [hcr] at hclose; exact hclose.elim
  | some triple =>
    obtain ⟨rem, closed, fr2⟩ := triple
    rw [hcr] at hclose
    obtain ⟨e1, e2, e3⟩ := hclose
    by_cases hfs : fs.isEmpty = true
    · rw [hfs]
      exact ⟨List.isEmpty_iff.mp hfs, rfl, e1, e2, e3⟩
    · have hfs2 : fs.isEmpty = false := by simpa using hfs
      rw [hfs2]
      refine ⟨?_, rfl, rfl, e1, e2, e3⟩
      intro hnil
      rw [hnil] at hfs
      exact hfs rfl

/-- C7 witness: a concrete final `Return` — one frame, one open upvalue at
slot 0, return value on top — halts, closes the upvalue with the stack
value, and pops the script callee. -/
theorem return_semantics_witness :
    (∀ u ∈ [({ id := 5, location := UpvalueLocation.stack 0 } : ObjUpvalue Value)],
        ∃ s, u.location = UpvalueLocation.stack s ∧ s < [Value.Nil].length) ∧
    (match returnStep ([Value.Nil] ++ [Value.Bool true])
        ([] ++ [({ closure := { function := fn0, upvalues := [] }, ip := 1, slots := 0 } : CallFrame)])
        [{ id := 5, location := UpvalueLocation.stack 0 }] 7 with
     | some (ReturnOutcome.halt stackAfter rem closed) =>
         ([] : List CallFrame) = [] ∧ stackAfter = [Value.Nil].dropLast ∧
         rem = [({ id := 5, location := UpvalueLocation.stack 0 } : ObjUpvalue Value)].filter
           (openSlotBelow ({ closure := { function := fn0, upvalues := [] }, ip := 1, slots := 0 } : CallFrame).slots) ∧
         closed.map ObjUpvalue.id
           = ([({ id := 5, location := UpvalueLocation.stack 0 } : ObjUpvalue Value)].filter
               (openSlotAtLeast ({ closure := { function := fn0, upvalues := [] }, ip := 1, slots := 0 } : CallFrame).slots)).map ObjUpvalue.id ∧
         closed.map heapValueOf
           = ([({ id := 5, location := UpvalueLocation.stack 0 } : ObjUpvalue Value)].filter
               (openSlotAtLeast ({ closure := { function := fn0, upvalues := [] }, ip := 1, slots := 0 } : CallFrame).slots)).map
               (fun u => [Value.Nil].get? (openSlotOf u))
     | some (ReturnOutcome.cont stackAfter framesAfter rem closed) =>
         ([] : List CallFrame) ≠ [] ∧ framesAfter = [] ∧
         stackAfter = [Value.Nil].take ({ closure := { function := fn0, upvalues := [] }, ip := 1, slots := 0 } : CallFrame).slots ++ [Value.Bool true] ∧
         rem = [({ id := 5, location := UpvalueLocation.stack 0 } : ObjUpvalue Value)].filter
           (openSlotBelow ({ closure := { function := fn0, upvalues := [] }, ip := 1, slots := 0 } : CallFrame).slots) ∧
         closed.map ObjUpvalue.id
           = ([({ id := 5, location := UpvalueLocation.stack 0 } : ObjUpvalue Value)].filter
               (openSlotAtLeast ({ closure := { function := fn0, upvalues := [] }, ip := 1, slots := 0 } : CallFrame).slots)).map ObjUpvalue.id ∧
         closed.map heapValueOf
           = ([({ id := 5, location := UpvalueLocation.stack 0 } : ObjUpvalue Value)].filter
               (openSlotAtLeast ({ closure := { function := fn0, upvalues := [] }, ip := 1, slots := 0 } : CallFrame).slots)).map
               (fun u => [Value.Nil].get? (openSlotOf u))
     | none => False) := by
  constructor
  · intro u hu
    simp only [List.mem_singleton] at hu
    subst hu
    exact ⟨0, rfl, by decide⟩
  · exact return_semantics [Value.Nil] (Value.Bool true) []
      { closure := { function := fn0, upvalues := [] }, ip := 1, slots := 0 }
      [{ id := 5, location := UpvalueLocation.stack 0 }] 7
      (by
        intro u hu
        simp only [List.mem_singleton] at hu
        subst hu
        exact ⟨0, rfl, by decide⟩)

end RLox
